import Mathlib

/-!
Verification of the Problem Bank Engine of the mock-exam generator.

This file gives a shallow embedding of the relevant source modules:

* `src/core/models.py`        — the `Problem` value and its identity,
* `src/core/persistence.py`   — the `ProblemTracker` usage store,
* `src/core/selector.py`      — `QuestionSelector.select_questions`,
* `src/models.py`             — the `Question` value and `QuestionBank`,
* `src/parser.py`             — `parse_latex_questions` and
  `_parse_subsection_format`,
* `src/persistence.py`        — `load_progress`,
* `src/generator.py`          — `_generate_exam_one_per_topic`.

Pure functions are translated as Lean functions; the mutable tracker and
question bank are translated by explicit state passing; the `random`
module is translated as a stream of natural numbers (a function
`Nat → Nat` with a cursor) from which each `choice`/`sample` call draws;
Python exceptions are translated as `Except`; the `while` loop of the
fill pass, whose progress is data dependent, is translated with explicit
fuel (`none` = the loop has not finished within the given fuel; the
divergence results below show inputs on which it finishes for no fuel).
The `hashlib.md5` hexdigest is an external library function and is kept
as an explicit `digest : String → String` parameter; every statement
about identifiers holds for an arbitrary digest.
-/

/-- `src/core/models.py` `Problem`: a dataclass with `topic`, `text` and an
optional `file_path` (kept as a plain string here). -/
structure Problem where
  topic : String
  text : String
  file_path : Option String
deriving DecidableEq

/-- Python `Problem.__eq__`: equality is by `(topic, text)` only; this is the
identity used by `in`/`not in` during selection and by the spec. -/
def probEq (p q : Problem) : Bool :=
  p.topic == q.topic && p.text == q.text

/-- Python `candidate in selected` on a list of problems. -/
def pmem (p : Problem) (l : List Problem) : Bool :=
  l.any (fun q => probEq p q)

def defaultProblem : Problem := ⟨"", "", none⟩

/-- `src/core/persistence.py` `ProblemTracker._get_problem_id`: with a
`file_path` the id is `f"{file_path}:{md5(text)[:8]}"`, otherwise the full
`md5(text)` hexdigest.  The md5 hexdigest is the parameter `digest`.
Note the `topic` field plays no part. -/
def get_problem_id (digest : String → String) (p : Problem) : String :=
  match p.file_path with
  | some fp => fp ++ ":" ++ (digest p.text).take 8
  | none => digest p.text

/-- State of a `ProblemTracker`: the in-memory set `_used_problems`
(kept as a duplicate-free list) and a counter of completed `_save` calls
to the backing document. -/
structure TrackerState where
  used_problems : List String
  saves : Nat
deriving DecidableEq

/-- `ProblemTracker.is_used`. -/
def is_used (digest : String → String) (st : TrackerState) (p : Problem) : Bool :=
  st.used_problems.contains (get_problem_id digest p)

/-- `ProblemTracker.mark_as_used`: adds the id and saves only when the id
is not yet present. -/
def mark_as_used (digest : String → String) (st : TrackerState) (p : Problem) :
    TrackerState :=
  let pid := get_problem_id digest p
  if st.used_problems.contains pid then st
  else { used_problems := pid :: st.used_problems, saves := st.saves + 1 }

/-- `ProblemTracker.get_stats()["total_used"]` = `len(self._used_problems)`. -/
def total_used (st : TrackerState) : Nat :=
  st.used_problems.length

/-- `ProblemTracker.get_unused_problems`. -/
def get_unused_problems (digest : String → String) (st : TrackerState)
    (problems : List Problem) : List Problem :=
  problems.filter (fun p => !(is_used digest st p))

/-- The `random` source of `src/core/selector.py`: a stream of naturals
(`f`) with a cursor (`i`).  Each call of `choice` consumes one draw. -/
structure RState where
  f : Nat → Nat
  i : Nat

/-- `random.Random.choice(l)`: picks `l[draw % len(l)]` and advances the
stream.  All call sites in the source pass a non-empty list, so the
default `d` is never returned there. -/
def rngChoice (d : α) (r : RState) (l : List α) : α × RState :=
  (l.getD (r.f r.i % l.length) d, ⟨r.f, r.i + 1⟩)

/-- Selection errors of `QuestionSelector.select_questions` (all are
`ValueError` in Python; the constructors record which message). -/
inductive SelErr where
  | invalidCount (n : Int)
  | noTopics
  | insufficientPool (requested available : Nat)
deriving DecidableEq

/-- Lines 85–93 and 105–110 of `src/core/selector.py`: the candidate list
for one topic — when a tracker is present and `prefer_unused` holds,
the unused problems unless there are none, otherwise the full list. -/
def candidateProblems (digest : String → String) (tracker : Option TrackerState)
    (prefer_unused : Bool) (problems : List Problem) : List Problem :=
  match tracker with
  | some st =>
    if prefer_unused then
      let unused := get_unused_problems digest st problems
      if unused.isEmpty then problems else unused
    else problems
  | none => problems

/-- Step 1 of `select_questions` (lines 79–97): one problem appended per
topic of `available_topics`, stopping early once `k` are selected. -/
def coverage_pass (digest : String → String) (tracker : Option TrackerState)
    (prefer_unused : Bool) (k : Nat) :
    List (String × List Problem) → List Problem → RState → List Problem × RState
  | [], sel, r => (sel, r)
  | (_, problems) :: rest, sel, r =>
    if k ≤ sel.length then (sel, r)
    else if problems.isEmpty then
      coverage_pass digest tracker prefer_unused k rest sel r
    else
      let cands := candidateProblems digest tracker prefer_unused problems
      let c := rngChoice defaultProblem r cands
      coverage_pass digest tracker prefer_unused k rest (sel ++ [c.1]) c.2

/-- Step 2 of `select_questions` (lines 100–124), with fuel.  In the
source, both the `candidate in selected` branch and the
`all(p in selected ...)`/`continue` branch re-enter the `while` loop with
`selected` unchanged, so both appear here as a recursive call on the same
`sel`. -/
def fill_pass (digest : String → String) (tracker : Option TrackerState)
    (prefer_unused : Bool) (k : Nat) (avail : List (String × List Problem)) :
    Nat → List Problem → RState → Option (List Problem × RState)
  | 0, _, _ => none
  | fuel + 1, sel, r =>
    if k ≤ sel.length then some (sel, r)
    else
      let c1 := rngChoice ("", []) r avail
      let cands := candidateProblems digest tracker prefer_unused c1.1.2
      let c2 := rngChoice defaultProblem c1.2 cands
      if pmem c2.1 sel then
        fill_pass digest tracker prefer_unused k avail fuel sel c2.2
      else
        fill_pass digest tracker prefer_unused k avail fuel (sel ++ [c2.1]) c2.2

/-- `QuestionSelector._get_total_available_questions`. -/
def total_available (topics : List (String × List Problem)) : Nat :=
  (topics.map (fun tp => tp.2.length)).sum

/-- `QuestionSelector.select_questions` (lines 42–126).  The topic dict is
its ordered item list; the result is paired with the tracker state after
the call (the source never mutates the tracker here, so it is returned
as received).  `none` in the first component means the fill pass did not
finish within `fuel`. -/
def select_questions (digest : String → String) (topics : List (String × List Problem))
    (tracker : Option TrackerState) (prefer_unused : Bool) (num_questions : Int)
    (r : RState) (fuel : Nat) :
    Option (Except SelErr (List Problem)) × Option TrackerState :=
  if num_questions ≤ 0 then (some (.error (.invalidCount num_questions)), tracker)
  else
    let k := num_questions.toNat
    let avail := topics.filter (fun tp => !tp.2.isEmpty)
    if avail.isEmpty then (some (.error .noTopics), tracker)
    else if total_available topics < k then
      (some (.error (.insufficientPool k (total_available topics))), tracker)
    else
      let cov := coverage_pass digest tracker prefer_unused k avail [] r
      match fill_pass digest tracker prefer_unused k avail fuel cov.1 cov.2 with
      | some (l, _) => (some (.ok l), tracker)
      | none => (none, tracker)

/-- `src/models.py` `Question`: dataclass with validation in
`__post_init__`; `done` defaults to `False`, `last_seen` to `None`
(timestamps are abstracted to naturals). -/
structure Question where
  id : String
  topic : String
  text : String
  solution : String
  done : Bool
  last_seen : Option Nat
deriving DecidableEq

/-- A Python loop building a list, where the body may raise: the first
raised exception propagates. -/
def mapMExcept (f : α → Except String β) : List α → Except String (List β)
  | [] => .ok []
  | x :: xs =>
    match f x with
    | .error e => .error e
    | .ok y =>
      match mapMExcept f xs with
      | .error e => .error e
      | .ok ys => .ok (y :: ys)

/-- `Question(...)` construction: `__post_init__` raises `ValueError` on an
empty id or empty text; the solution may be empty. -/
def mkQuestion (id topic text solution : String) : Except String Question :=
  if id == "" then .error "Question ID cannot be empty"
  else if text == "" then .error "Question text cannot be empty"
  else .ok ⟨id, topic, text, solution, false, none⟩

/-- Characters stripped by Python `str.strip()`. -/
def isPySpace (c : Char) : Bool :=
  c == ' ' || c == '\t' || c == '\n' || c == '\r' || c == '\x0b' || c == '\x0c'

/-- Python `str.strip()`. -/
def pyStrip (s : List Char) : List Char :=
  ((s.dropWhile isPySpace).reverse.dropWhile isPySpace).reverse

/-- Split `s` at the first occurrence of `pat`, returning the part before
the occurrence and the suffix starting at the occurrence (`none` when
`pat` does not occur).  This is the leftmost-match search of `re` and of
Python's `in` operator. -/
def splitFirstKeep (pat : List Char) : List Char → Option (List Char × List Char)
  | [] => none
  | c :: rest =>
    if pat.isPrefixOf (c :: rest) then some ([], c :: rest)
    else
      match splitFirstKeep pat rest with
      | none => none
      | some (pre, suf) => some (c :: pre, suf)

/-- Python `pat in s` for strings (with a non-empty `pat`). -/
def containsSub (pat s : List Char) : Bool :=
  (splitFirstKeep pat s).isSome

/-- Like `splitFirstKeep`, but the suffix starts after the occurrence. -/
def splitFirst (pat s : List Char) : Option (List Char × List Char) :=
  match splitFirstKeep pat s with
  | none => none
  | some (pre, suf) => some (pre, suf.drop pat.length)

/-- One lazy-dotall match of `open(.*?)close`: the capture runs from the
first occurrence of `openTag` to the nearest following `closeTag`; the
second component is the text after that `closeTag`. -/
def findFirstBlock (openTag closeTag s : List Char) :
    Option (List Char × List Char) :=
  match splitFirst openTag s with
  | none => none
  | some (_, afterOpen) =>
    match splitFirst closeTag afterOpen with
    | none => none
    | some (cap, rest) => some (cap, rest)

def problemOpenTag : List Char := "\\begin\x7bproblem\x7d".data

def problemCloseTag : List Char := "\\end\x7bproblem\x7d".data

def solutionOpenTag : List Char := "\\begin\x7bsolution\x7d".data

def solutionCloseTag : List Char := "\\end\x7bsolution\x7d".data

def subsectionProblemLit : List Char := "\\subsection*\x7bProblem".data

def subsectionSolutionLit : List Char := "\\subsection*\x7bSolution".data

/-- `re.finditer` over the delimited problem pattern (lines 35–41 of
`src/parser.py`): each element is one match's capture together with the
text after the match's end, where the next search resumes.  Fuel is set
by the callers to more than the text length, which always suffices. -/
def delimScan : Nat → List Char → List (List Char × List Char)
  | 0, _ => []
  | fuel + 1, s =>
    match findFirstBlock problemOpenTag problemCloseTag s with
    | none => []
    | some (cap, rest) => (cap, rest) :: delimScan fuel rest

/-- The delimited ("old format") branch of `parse_latex_questions`
(lines 34–72 of `src/parser.py`): the `idx`-th problem capture is paired
with the first solution block found in the text after the problem match's
end (searching to the end of the text), defaulting to the empty string. -/
def parse_delimited_format (latex : List Char) (topic : String) :
    Except String (List Question) :=
  mapMExcept (fun ic =>
    let sol : List Char :=
      match findFirstBlock solutionOpenTag solutionCloseTag ic.2.2 with
      | some (sc, _) => pyStrip sc
      | none => []
    mkQuestion (topic ++ "_" ++ toString (ic.1 + 1)) topic
      (String.mk (pyStrip ic.2.1)) (String.mk sol))
    (delimScan (latex.length + 1) latex).enum

def isPyDigit (c : Char) : Bool := '0' ≤ c && c ≤ '9'

/-- Python `int(...)` on a non-empty digit string. -/
def natOfDigits (ds : List Char) : Nat :=
  ds.foldl (fun n c => n * 10 + (c.toNat - '0'.toNat)) 0

/-- The part of the subsection problem pattern after the literal
`\subsection*{Problem`: `\s+(\d+)(?:\s*—\s*[^}]*)?\}`.  Returns the label
and the text after the closing brace, or `none` when the header does not
match there (the regex engine then keeps scanning). -/
def parseProblemHeader (s : List Char) : Option (Nat × List Char) :=
  let s1 := s.dropWhile isPySpace
  if s1.length == s.length then none
  else
    let ds := s1.takeWhile isPyDigit
    if ds.isEmpty then none
    else
      let label := natOfDigits ds
      match s1.drop ds.length with
      | '\x7d' :: r => some (label, r)
      | s2 =>
        match s2.dropWhile isPySpace with
        | '—' :: s4 =>
          match s4.dropWhile (fun c => c != '\x7d') with
          | '\x7d' :: r => some (label, r)
          | _ => none
        | _ => none

/-- The part of the subsection solution pattern after the literal
`\subsection*{Solution`: `\s+(\d+)\}`. -/
def parseSolutionHeader (s : List Char) : Option (Nat × List Char) :=
  let s1 := s.dropWhile isPySpace
  if s1.length == s.length then none
  else
    let ds := s1.takeWhile isPyDigit
    if ds.isEmpty then none
    else
      match s1.drop ds.length with
      | '\x7d' :: r => some (natOfDigits ds, r)
      | _ => none

/-- The lazy capture `(.*?)` bounded by the lookahead
`(?=lit|\Z)`: text up to the next occurrence of `lit` (not consumed) or
to the end. -/
def captureUntil (lit s : List Char) : List Char × List Char :=
  match splitFirstKeep lit s with
  | none => (s, [])
  | some (pre, suf) => (pre, suf)

/-- `re.finditer` over a subsection pattern: scan for the literal, try the
header there, on failure keep scanning after the literal, on success
capture up to the next occurrence of the literal (where the next search
resumes).  Fuel beyond the text length always suffices. -/
def subsectionScan (lit : List Char) (hdr : List Char → Option (Nat × List Char)) :
    Nat → List Char → List (Nat × List Char)
  | 0, _ => []
  | fuel + 1, s =>
    match splitFirst lit s with
    | none => []
    | some (_, afterLit) =>
      match hdr afterLit with
      | none => subsectionScan lit hdr fuel afterLit
      | some (label, rest) =>
        let capRem := captureUntil lit rest
        (label, capRem.1) :: subsectionScan lit hdr fuel capRem.2

/-- The first line of `s` (with its newline, if any) and the rest. -/
def lineSplit (s : List Char) : List Char × List Char :=
  let pre := s.takeWhile (fun c => c != '\n')
  match s.drop pre.length with
  | '\n' :: r => (pre ++ ['\n'], r)
  | _ => (pre, [])

/-- `re.sub(r'^%[^\n]*\n?', '', text, flags=re.MULTILINE)`: drop every
line that starts with `%`, together with its newline. -/
def stripCommentLines : Nat → List Char → List Char
  | 0, s => s
  | _ + 1, [] => []
  | fuel + 1, s@(c :: _) =>
    let lr := lineSplit s
    if c = '%' then stripCommentLines fuel lr.2
    else lr.1 ++ stripCommentLines fuel lr.2

/-- Cleanup applied to each captured subsection body in
`_parse_subsection_format`: `.strip()`, comment-line removal, `.strip()`. -/
def cleanup (cap : List Char) : List Char :=
  pyStrip (stripCommentLines ((pyStrip cap).length + 1) (pyStrip cap))

/-- A Python dict as an association list in insertion order: assignment to
an existing key overwrites its value in place. -/
def dictInsert (k : Nat) (v : List Char) :
    List (Nat × List Char) → List (Nat × List Char)
  | [] => [(k, v)]
  | (k', v') :: rest =>
    if k' == k then (k', v) :: rest else (k', v') :: dictInsert k v rest

def dictOf (l : List (Nat × List Char)) : List (Nat × List Char) :=
  l.foldl (fun d kv => dictInsert kv.1 kv.2 d) []

def dictFind (d : List (Nat × List Char)) (k : Nat) : Option (List Char) :=
  (d.find? (fun kv => kv.1 == k)).map (fun kv => kv.2)

def dictKeys (d : List (Nat × List Char)) : List Nat :=
  d.map (fun kv => kv.1)

/-- Python `sorted(...)` on naturals (any stable comparison sort). -/
def sortNats (l : List Nat) : List Nat := l.insertionSort (· ≤ ·)

/-- The problem matches of `_parse_subsection_format` with the body
cleanup applied (lines 95–104 of `src/parser.py`). -/
def subsectionProblemScan (latex : List Char) : List (Nat × List Char) :=
  (subsectionScan subsectionProblemLit parseProblemHeader (latex.length + 1) latex).map
    (fun x => (x.1, cleanup x.2))

/-- The solution matches of `_parse_subsection_format` with the body
cleanup applied (lines 107–116 of `src/parser.py`). -/
def subsectionSolutionScan (latex : List Char) : List (Nat × List Char) :=
  (subsectionScan subsectionSolutionLit parseSolutionHeader (latex.length + 1) latex).map
    (fun x => (x.1, cleanup x.2))

/-- The pairing loop of `_parse_subsection_format` (lines 118–134): iterate
the problem labels in ascending order, pairing each with
`solutions.get(num, "")`. -/
def subsection_units (latex : List Char) : List (Nat × List Char × List Char) :=
  let probs := dictOf (subsectionProblemScan latex)
  let sols := dictOf (subsectionSolutionScan latex)
  (sortNats (dictKeys probs)).map (fun n =>
    (n, (dictFind probs n).getD [], (dictFind sols n).getD []))

/-- `_parse_subsection_format` (lines 75–136 of `src/parser.py`). -/
def parse_subsection_format (latex : List Char) (topic : String) :
    Except String (List Question) :=
  mapMExcept (fun u =>
    mkQuestion (topic ++ "_" ++ toString u.1) topic
      (String.mk u.2.1) (String.mk u.2.2))
    (subsection_units latex)

/-- `parse_latex_questions` (lines 11–72 of `src/parser.py`): when the text
contains the literal `\subsection*{Problem` the subsection format is tried
first and its result returned when non-empty; otherwise the delimited
format is used. -/
def parse_latex_questions (latex : List Char) (topic : String) :
    Except String (List Question) :=
  if containsSub subsectionProblemLit latex then
    match parse_subsection_format latex topic with
    | .error e => .error e
    | .ok [] => parse_delimited_format latex topic
    | .ok qs => .ok qs
  else parse_delimited_format latex topic

/-- One entry of the progress document of `src/persistence.py`: `done` is
`none` when the `"done"` key is absent (Python `get("done", False)`), and
`last_seen` is `none` when the `"last_seen"` key is absent or null. -/
structure ProgressEntry where
  id : String
  done : Option Bool
  last_seen : Option String
deriving DecidableEq

/-- The progress document as `load_progress` sees it: the file may be
missing, unreadable as JSON (the caught `JSONDecodeError`/`KeyError`/
`ValueError` case), or a parsed list of question entries. -/
inductive ProgressDoc where
  | missing
  | unparseable
  | loaded (entries : List ProgressEntry)
deriving DecidableEq

/-- `progress_map[q.id]` — the dict built on lines 61–63 of
`src/persistence.py` maps each id to the last entry carrying it. -/
def entryFor : List ProgressEntry → String → Option ProgressEntry
  | [], _ => none
  | e :: rest, i =>
    match entryFor rest i with
    | some e' => some e'
    | none => if e.id == i then some e else none

/-- Lines 67–77 of `src/persistence.py`: the update applied to a question
whose id is in the progress map.  `parseIso` stands for
`datetime.fromisoformat`, returning `none` where Python raises
`ValueError`/`TypeError` (caught, yielding `None`). -/
def applyEntry (parseIso : String → Option Nat) (e : ProgressEntry)
    (q : Question) : Question :=
  { q with
    done := e.done.getD false,
    last_seen :=
      match e.last_seen with
      | some s => if s == "" then none else parseIso s
      | none => none }

/-- `load_progress` (lines 41–82 of `src/persistence.py`) acting on the
bank's question list. -/
def load_progress (parseIso : String → Option Nat) (doc : ProgressDoc)
    (bank : List Question) : List Question :=
  match doc with
  | .missing => bank
  | .unparseable => bank
  | .loaded entries =>
    bank.map (fun q =>
      match entryFor entries q.id with
      | some e => applyEntry parseIso e q
      | none => q)

/-- `QuestionBank.reset_all_questions` applied to one question. -/
def resetQuestion (q : Question) : Question :=
  { q with done := false, last_seen := none }

/-- Lexicographic code-point comparison of strings, as Python compares
them. -/
def lexLe : List Char → List Char → Bool
  | [], _ => true
  | _ :: _, [] => false
  | a :: as, b :: bs =>
    if a.toNat < b.toNat then true
    else if b.toNat < a.toNat then false
    else lexLe as bs

/-- Python `sorted(...)` on strings (any stable comparison sort). -/
def sortStrs (l : List String) : List String :=
  l.insertionSort (fun a b => lexLe a.data b.data = true)

/-- `QuestionBank.get_topics`: `sorted(list(set(q.topic for q in ...)))`. -/
def get_topics (bank : List Question) : List String :=
  sortStrs (bank.map (fun q => q.topic)).dedup

/-- `QuestionBank.get_questions_by_topic`. -/
def get_questions_by_topic (bank : List Question) (t : String) : List Question :=
  bank.filter (fun q => q.topic == t)

/-- Lines 87–94 of `src/generator.py`: topic → its unsolved questions,
keeping only topics with at least one. -/
def unsolvedByTopic (bank : List Question) (topics : List String) :
    List (String × List Question) :=
  topics.filterMap (fun t =>
    let l := (get_questions_by_topic bank t).filter (fun q => !q.done)
    if l.isEmpty then none else some (t, l))

/-- Lines 99–103 of `src/generator.py`: after the reset, topic → all of
its questions, keeping only topics with at least one. -/
def allByTopic (bank : List Question) (topics : List String) :
    List (String × List Question) :=
  topics.filterMap (fun t =>
    let l := get_questions_by_topic bank t
    if l.isEmpty then none else some (t, l))

/-- `random.sample(l, k)`: `k` draws without replacement. -/
def pySample (d : α) : RState → List α → Nat → List α × RState
  | r, _, 0 => ([], r)
  | r, l, k + 1 =>
    let idx := r.f r.i % l.length
    let res := pySample d ⟨r.f, r.i + 1⟩ (l.eraseIdx idx) k
    (l.getD idx d :: res.1, res.2)

def defaultQuestion : Question := ⟨"", "", "", "", false, none⟩

/-- Python dict lookup `unsolved_by_topic[topic]` (keys are distinct, so
the first match is the binding). -/
def lookupTopic (l : List (String × List Question)) (t : String) : List Question :=
  match l.find? (fun p => p.1 == t) with
  | some p => p.2
  | none => []

/-- Lines 115–123 of `src/generator.py`: one random question per selected
topic, marked done with `last_seen := now`. -/
def pickPerTopic (ubt : List (String × List Question)) (now : Nat) :
    List String → RState → List Question × RState
  | [], r => ([], r)
  | t :: ts, r =>
    let cr := rngChoice defaultQuestion r (lookupTopic ubt t)
    let res := pickPerTopic ubt now ts cr.2
    ({ cr.1 with done := true, last_seen := some now } :: res.1, res.2)

/-- `_generate_exam_one_per_topic` (lines 65–132 of `src/generator.py`),
returning the exam's question list.  The final guard mirrors
`Exam.__post_init__` (length must match and be positive). -/
def generate_exam_one_per_topic (bank : List Question) (n : Nat) (r : RState)
    (now : Nat) : Except String (List Question) :=
  let topics := get_topics bank
  if topics.length < n then
    .error "Cannot generate questions with one per topic"
  else
    let ubt := unsolvedByTopic bank topics
    let bu :=
      if ubt.length < n then
        let b := bank.map resetQuestion
        (b, allByTopic b topics)
      else (bank, ubt)
    if bu.2.length < n then
      .error "Not enough topics with available questions"
    else
      let st := pySample "" r (bu.2.map (fun p => p.1)) n
      let sel := pickPerTopic bu.2 now st.1 st.2
      if sel.1.length != n || n == 0 then .error "exam validation"
      else .ok sel.1

def idDigest : String → String := fun s => s

def zeroRng : RState := ⟨fun _ => 0, 0⟩

theorem probEq_iff (p q : Problem) : probEq p q = true ↔ p.topic = q.topic ∧ p.text = q.text := by
  simp [probEq]

theorem probEq_comm (p q : Problem) : probEq p q = probEq q p := by
  by_cases h : probEq p q = true
  · have h' := (probEq_iff p q).mp h
    rw [h, Eq.symm ((probEq_iff q p).mpr ⟨h'.1.symm, h'.2.symm⟩)]
  · have h2 : ¬ probEq q p = true := by
      intro hqp
      exact h ((probEq_iff p q).mpr ⟨((probEq_iff q p).mp hqp).1.symm, ((probEq_iff q p).mp hqp).2.symm⟩)
    rw [Bool.not_eq_true] at h h2
    rw [h, h2]

/-- C6: `mark_as_used` is idempotent — a second call on the same problem is a
complete no-op (same used set, same `total_used`, no further save), while the
first call on a not-yet-used problem adds its identifier, persists once, and
increases `total_used` by one. -/
theorem C6_mark_used_idempotent (digest : String → String) (st : TrackerState) (p : Problem) :
    mark_as_used digest (mark_as_used digest st p) p = mark_as_used digest st p ∧
    total_used (mark_as_used digest (mark_as_used digest st p) p) =
      total_used (mark_as_used digest st p) ∧
    (mark_as_used digest (mark_as_used digest st p) p).saves =
      (mark_as_used digest st p).saves ∧
    (is_used digest st p = false →
      is_used digest (mark_as_used digest st p) p = true ∧
      (mark_as_used digest st p).saves = st.saves + 1 ∧
      total_used (mark_as_used digest st p) = total_used st + 1) := by
  by_cases h : get_problem_id digest p ∈ st.used_problems
  · have hfix : mark_as_used digest st p = st := by
      simp [mark_as_used, h]
    rw [hfix]
    refine ⟨hfix, by rw [hfix], by rw [hfix], ?_⟩
    intro hu
    rw [is_used] at hu
    simp [h] at hu
  · have hmark : mark_as_used digest st p =
        ⟨get_problem_id digest p :: st.used_problems, st.saves + 1⟩ := by
      simp [mark_as_used, h]
    have hin : get_problem_id digest p ∈ (mark_as_used digest st p).used_problems := by
      rw [hmark]
      exact List.mem_cons_self _ _
    have hfix2 : mark_as_used digest (mark_as_used digest st p) p = mark_as_used digest st p := by
      rw [mark_as_used.eq_def]
      simp [hin]
    refine ⟨hfix2, by rw [hfix2], by rw [hfix2], ?_⟩
    intro _
    refine ⟨?_, by rw [hmark], by rw [hmark, total_used, total_used]; rfl⟩
    rw [is_used]
    simp [hin]

/-- Witness for C6 at a concrete tracker state and problem. -/
theorem C6_witness :
    is_used idDigest ⟨[], 0⟩ ⟨"A", "x", none⟩ = false ∧
    (is_used idDigest (mark_as_used idDigest ⟨[], 0⟩ ⟨"A", "x", none⟩) ⟨"A", "x", none⟩ = true ∧
     (mark_as_used idDigest ⟨[], 0⟩ ⟨"A", "x", none⟩).saves = (⟨[], 0⟩ : TrackerState).saves + 1 ∧
     total_used (mark_as_used idDigest ⟨[], 0⟩ ⟨"A", "x", none⟩) = total_used ⟨[], 0⟩ + 1) ∧
    mark_as_used idDigest (mark_as_used idDigest ⟨[], 0⟩ ⟨"A", "x", none⟩) ⟨"A", "x", none⟩ =
      mark_as_used idDigest ⟨[], 0⟩ ⟨"A", "x", none⟩ :=
  ⟨rfl, (C6_mark_used_idempotent idDigest ⟨[], 0⟩ ⟨"A", "x", none⟩).2.2.2 rfl,
    (C6_mark_used_idempotent idDigest ⟨[], 0⟩ ⟨"A", "x", none⟩).1⟩

/-- C7 (amended): the usage-store identifier of a problem depends only on its
text and source locator — the topic is not folded in — so two units with the
same text and locator get the same identifier whatever their topics, and
marking one of them used makes the other report used as well. -/
theorem C7_id_ignores_topic (digest : String → String) (p q : Problem)
    (ht : p.text = q.text) (hf : p.file_path = q.file_path) :
    get_problem_id digest p = get_problem_id digest q ∧
    ∀ st : TrackerState, is_used digest (mark_as_used digest st p) q = true := by
  have hid : get_problem_id digest p = get_problem_id digest q := by
    unfold get_problem_id
    rw [ht, hf]
  refine ⟨hid, fun st => ?_⟩
  rw [is_used, ← hid, mark_as_used]
  by_cases h : get_problem_id digest p ∈ st.used_problems
  · simp [h]
  · simp [h]

/-- Witness for C7's amended theorem at two concrete problems differing only
in topic. -/
theorem C7_witness :
    get_problem_id idDigest ⟨"a", "t", some "f"⟩ = get_problem_id idDigest ⟨"b", "t", some "f"⟩ ∧
    is_used idDigest (mark_as_used idDigest ⟨["z"], 3⟩ ⟨"a", "t", some "f"⟩) ⟨"b", "t", some "f"⟩ = true :=
  ⟨(C7_id_ignores_topic idDigest ⟨"a", "t", some "f"⟩ ⟨"b", "t", some "f"⟩ rfl rfl).1,
   (C7_id_ignores_topic idDigest ⟨"a", "t", some "f"⟩ ⟨"b", "t", some "f"⟩ rfl rfl).2 ⟨["z"], 3⟩⟩

/-- C7 counterexample: with identical text and source locator but different
topics, the identifiers are equal — not distinct as claimed — and the two
units are not tracked independently: marking one marks the other. -/
theorem C7_counterexample :
    get_problem_id idDigest ⟨"alg", "same", some "f.tex"⟩ =
      get_problem_id idDigest ⟨"geo", "same", some "f.tex"⟩ ∧
    ("alg" : String) ≠ "geo" ∧
    is_used idDigest (mark_as_used idDigest ⟨[], 0⟩ ⟨"alg", "same", some "f.tex"⟩)
      ⟨"geo", "same", some "f.tex"⟩ = true :=
  ⟨rfl, by decide, rfl⟩
/-- C5: `select_questions` reports `InvalidCount` for every non-positive
count (checked first), `NoTopics` when no topic has a problem, and
`InsufficientPool` — with the requested and available counts — when the
count exceeds the total pool; and the tracker state it returns is always
exactly the one it was given (no mutation on any path, in particular on
every failure). -/
theorem C5_error_handling (digest : String → String)
    (topics : List (String × List Problem)) (tracker : Option TrackerState)
    (pu : Bool) (n : Int) (r : RState) (fuel : Nat) :
    (select_questions digest topics tracker pu n r fuel).2 = tracker ∧
    (n ≤ 0 →
      (select_questions digest topics tracker pu n r fuel).1 =
        some (.error (.invalidCount n))) ∧
    (0 < n → (∀ tp ∈ topics, tp.2 = []) →
      (select_questions digest topics tracker pu n r fuel).1 = some (.error .noTopics)) ∧
    (0 < n → (∃ tp ∈ topics, tp.2 ≠ []) → total_available topics < n.toNat →
      (select_questions digest topics tracker pu n r fuel).1 =
        some (.error (.insufficientPool n.toNat (total_available topics)))) := by
  refine ⟨?_, ?_, ?_, ?_⟩
  · rw [select_questions]
    dsimp only
    split
    · rfl
    · split
      · rfl
      · split
        · rfl
        · split <;> rfl
  · intro hn
    simp [select_questions, hn]
  · intro hn hempty
    have hfil : topics.filter (fun tp => !tp.2.isEmpty) = [] := by
      rw [List.filter_eq_nil_iff]
      intro tp htp
      simp [hempty tp htp]
    have hn' : ¬ n ≤ 0 := not_le.mpr hn
    simp [select_questions, hn', hfil]
  · intro hn hex hlt
    have hn' : ¬ n ≤ 0 := not_le.mpr hn
    obtain ⟨tp, htp, hne⟩ := hex
    have hfil : tp ∈ topics.filter (fun tp => !tp.2.isEmpty) := by
      rw [List.mem_filter]
      exact ⟨htp, by simp [hne]⟩
    have hfe : (topics.filter (fun tp => !tp.2.isEmpty)).isEmpty = false := by
      cases h : topics.filter (fun tp => !tp.2.isEmpty) with
      | nil => rw [h] at hfil; cases hfil
      | cons a l => rfl
    simp [select_questions, hn', hfe, hlt]

/-- Witness for C5 at concrete inputs hitting each error case. -/
theorem C5_witness :
    (select_questions idDigest [("A", [⟨"A", "a", none⟩])] none true 0 zeroRng 1).1 =
      some (.error (.invalidCount 0)) ∧
    (select_questions idDigest [("A", ([] : List Problem))] none true 1 zeroRng 1).1 =
      some (.error .noTopics) ∧
    (select_questions idDigest [("A", [⟨"A", "a", none⟩])] none true 5 zeroRng 1).1 =
      some (.error (.insufficientPool 5 1)) ∧
    (select_questions idDigest [("A", [⟨"A", "a", none⟩])] none true 5 zeroRng 1).2 = none :=
  ⟨(C5_error_handling idDigest [("A", [⟨"A", "a", none⟩])] none true 0 zeroRng 1).2.1 (by decide),
   (C5_error_handling idDigest [("A", ([] : List Problem))] none true 1 zeroRng 1).2.2.1 (by decide)
     (by decide),
   (C5_error_handling idDigest [("A", [⟨"A", "a", none⟩])] none true 5 zeroRng 1).2.2.2 (by decide)
     ⟨("A", [⟨"A", "a", none⟩]), by decide, by decide⟩ (by decide),
   (C5_error_handling idDigest [("A", [⟨"A", "a", none⟩])] none true 5 zeroRng 1).1⟩

/-- C10: `load_progress` only ever touches the `done` and `last_seen`
fields: the bank keeps its length, every question keeps its id, topic,
text and solution; a question whose id has no entry in the document is
returned unchanged; and a missing or unparseable progress file leaves the
whole bank unchanged. -/
theorem C10_load_progress_frame (parseIso : String → Option Nat) (doc : ProgressDoc)
    (bank : List Question) :
    (doc = .missing → load_progress parseIso doc bank = bank) ∧
    (doc = .unparseable → load_progress parseIso doc bank = bank) ∧
    (load_progress parseIso doc bank).length = bank.length ∧
    (∀ (i : Nat) (h1 : i < (load_progress parseIso doc bank).length) (h2 : i < bank.length),
      ((load_progress parseIso doc bank)[i].id = bank[i].id ∧
       (load_progress parseIso doc bank)[i].topic = bank[i].topic ∧
       (load_progress parseIso doc bank)[i].text = bank[i].text ∧
       (load_progress parseIso doc bank)[i].solution = bank[i].solution) ∧
      ∀ entries, doc = .loaded entries → entryFor entries bank[i].id = none →
        (load_progress parseIso doc bank)[i] = bank[i]) := by
  cases doc with
  | missing =>
    refine ⟨fun _ => rfl, ?_, rfl, ?_⟩
    · intro h
      exact absurd h (by simp)
    · intro i h1 h2
      refine ⟨⟨rfl, rfl, rfl, rfl⟩, ?_⟩
      intro _ h _
      exact absurd h (by simp)
  | unparseable =>
    refine ⟨?_, fun _ => rfl, rfl, ?_⟩
    · intro h
      exact absurd h (by simp)
    · intro i h1 h2
      refine ⟨⟨rfl, rfl, rfl, rfl⟩, ?_⟩
      intro _ h _
      exact absurd h (by simp)
  | loaded entries =>
    refine ⟨?_, ?_, by simp [load_progress], ?_⟩
    · intro h
      exact absurd h (by simp)
    · intro h
      exact absurd h (by simp)
    intro i h1 h2
    have hg : (load_progress parseIso (.loaded entries) bank)[i] =
        (match entryFor entries bank[i].id with
         | some e => applyEntry parseIso e bank[i]
         | none => bank[i]) := by
      simp [load_progress]
    cases he : entryFor entries bank[i].id with
    | none =>
      rw [hg, he]
      exact ⟨⟨rfl, rfl, rfl, rfl⟩, fun _ _ _ => rfl⟩
    | some e =>
      rw [hg, he]
      refine ⟨⟨rfl, rfl, rfl, rfl⟩, ?_⟩
      intro entries' hd hnone
      cases hd
      rw [he] at hnone
      cases hnone

def pIso0 : String → Option Nat := fun _ => none

def doc0 : ProgressDoc := .loaded [⟨"q1", some true, none⟩]

def bank1 : List Question := [⟨"q2", "B", "y", "", false, none⟩]

/-- Witness for C10: a missing file leaves a concrete bank unchanged, and a
document whose only entry matches no question leaves it unchanged too. -/
theorem C10_witness :
    load_progress pIso0 .missing bank1 = bank1 ∧
    (load_progress pIso0 doc0 bank1).length = bank1.length ∧
    load_progress pIso0 doc0 bank1 = bank1 := by
  refine ⟨(C10_load_progress_frame pIso0 .missing bank1).1 rfl,
    (C10_load_progress_frame pIso0 doc0 bank1).2.2.1, ?_⟩
  apply List.ext_getElem (C10_load_progress_frame pIso0 doc0 bank1).2.2.1
  intro i h1 h2
  have hi : i = 0 := Nat.lt_one_iff.mp h2
  subst hi
  exact ((C10_load_progress_frame pIso0 doc0 bank1).2.2.2 0 h1 h2).2
    [⟨"q1", some true, none⟩] rfl rfl

def p1C2 : Problem := ⟨"A", "a", none⟩

def p2C2 : Problem := ⟨"A", "b", none⟩

def topicsC2 : List (String × List Problem) := [("A", [p1C2, p2C2])]

/-- A tracker on which `"b"` — the id of `p2C2` under `idDigest` — is
already used. -/
def trackerC2 : TrackerState := ⟨["b"], 0⟩

/-- On `topicsC2` with `trackerC2`, once the coverage pass has selected
`p1C2`, every iteration of the fill pass recomputes the candidate list
`[p1C2]` (the only unused problem), rejects it as a duplicate and loops:
the loop state never changes, so no amount of fuel finishes it. -/
theorem fill_stuck_on_used_pool : ∀ (fuel : Nat) (r : RState),
    fill_pass idDigest (some trackerC2) true 2 [("A", [p1C2, p2C2])] fuel [p1C2] r = none := by
  intro fuel
  induction fuel with
  | zero => intro r; rfl
  | succ n ih =>
    intro r
    rw [fill_pass]
    simp [rngChoice, Nat.mod_one, candidateProblems, get_unused_problems, is_used,
      get_problem_id, idDigest, trackerC2, p1C2, p2C2, pmem, probEq]
    exact ih _

/-- C2 (code bug): with topics `{"A": [p1, p2]}`, a usage store in which
`p2` is already used, `prefer_unused` on and a requested count of `2`
(equal to the total pool), `select_questions` never returns: the fill
pass diverges for every random stream and every amount of fuel, although
the claim says it terminates whenever the count does not exceed the total
number of units. -/
theorem C2_fill_pass_diverges (fuel : Nat) (r : RState) :
    (select_questions idDigest topicsC2 (some trackerC2) true 2 r fuel).1 = none := by
  rw [select_questions]
  simp [topicsC2, coverage_pass, rngChoice, Nat.mod_one, candidateProblems,
    get_unused_problems, is_used, get_problem_id, idDigest, trackerC2, p1C2, p2C2,
    total_available]
  rw [show fill_pass idDigest (some { used_problems := ["b"], saves := 0 }) true 2
        [("A", [{ topic := "A", text := "a", file_path := none },
                { topic := "A", text := "b", file_path := none }])]
        fuel [{ topic := "A", text := "a", file_path := none }] { f := r.f, i := r.i + 1 } = none
      from fill_stuck_on_used_pool fuel ⟨r.f, r.i + 1⟩]

/-- C3 (amended): extraction tries the numbered-subsection form FIRST —
whenever the text contains the literal `\subsection*{Problem` and the
subsection parser yields at least one unit, that result is returned; the
delimited form is used only when the marker is absent or the subsection
parser yields zero units. -/
theorem C3_subsection_first (latex : List Char) (topic : String) :
    (containsSub subsectionProblemLit latex = false →
      parse_latex_questions latex topic = parse_delimited_format latex topic) ∧
    (parse_subsection_format latex topic = .ok [] →
      parse_latex_questions latex topic = parse_delimited_format latex topic) ∧
    (∀ qs, parse_subsection_format latex topic = .ok qs → qs ≠ [] →
      containsSub subsectionProblemLit latex = true →
      parse_latex_questions latex topic = .ok qs) := by
  refine ⟨?_, ?_, ?_⟩
  · intro h
    simp [parse_latex_questions, h]
  · intro h
    by_cases hc : containsSub subsectionProblemLit latex
    · simp [parse_latex_questions, hc, h]
    · simp [parse_latex_questions, hc]
  · intro qs h hne hc
    cases qs with
    | nil => exact absurd rfl hne
    | cons a l => simp [parse_latex_questions, hc, h]

def latexC3 : List Char :=
  ("\\begin\x7bproblem\x7dA\\end\x7bproblem\x7d\\subsection*\x7bProblem 1\x7d B").data

/-- C3 counterexample: on a text containing both an old-format problem
block (text `A`) and a subsection-format problem (text `B`), the delimited
form yields a match, yet the parser returns the subsection result — the
precedence is the reverse of the claimed one. -/
theorem C3_counterexample :
    parse_latex_questions latexC3 "t" = .ok [⟨"t_1", "t", "B", "", false, none⟩] ∧
    parse_delimited_format latexC3 "t" = .ok [⟨"t_1", "t", "A", "", false, none⟩] ∧
    delimScan (latexC3.length + 1) latexC3 ≠ [] ∧
    parse_latex_questions latexC3 "t" ≠ parse_delimited_format latexC3 "t" := by
  refine ⟨rfl, ?_, by decide, ?_⟩
  · rfl
  · intro h
    have h3 : ("B" : String) = "A" := congrArg (fun r =>
      match r with
      | Except.ok (q :: _) => q.text
      | _ => "") h
    exact absurd h3 (by decide)

/-- Witness for C3's amended theorem: a marker-free text falls back to the
delimited form, and a text where the subsection form yields a unit returns
that unit. -/
theorem C3_witness :
    parse_latex_questions ("no markers".data) "t" = parse_delimited_format ("no markers".data) "t" ∧
    parse_latex_questions latexC3 "t" = .ok [⟨"t_1", "t", "B", "", false, none⟩] :=
  ⟨(C3_subsection_first ("no markers".data) "t").1 rfl,
   (C3_subsection_first latexC3 "t").2.2 [⟨"t_1", "t", "B", "", false, none⟩] rfl
     (by decide) rfl⟩

theorem mapMExcept_ok {α β : Type} (f : α → Except String β) :
    ∀ (l : List α) (ys : List β), mapMExcept f l = .ok ys →
      ys.length = l.length ∧
      ∀ (i : Nat) (h1 : i < l.length) (h2 : i < ys.length), f l[i] = .ok ys[i] := by
  intro l
  induction l with
  | nil =>
    intro ys h
    rw [mapMExcept] at h
    cases h
    exact ⟨rfl, fun i h1 _ => absurd h1 (by simp)⟩
  | cons x xs ih =>
    intro ys h
    rw [mapMExcept] at h
    cases hf : f x with
    | error e => simp [hf] at h
    | ok y =>
      cases hm : mapMExcept f xs with
      | error e => simp [hf, hm] at h
      | ok ys' =>
        simp only [hf, hm] at h
        cases h
        obtain ⟨hl, hp⟩ := ih ys' hm
        refine ⟨by simp [hl], ?_⟩
        intro i h1 h2
        cases i with
        | zero => simpa using hf
        | succ j =>
          simp only [List.getElem_cons_succ]
          exact hp j (by simpa using h1) (by simpa using h2)

theorem mkQuestion_ok {i t x s : String} {q : Question}
    (h : mkQuestion i t x s = .ok q) : q = ⟨i, t, x, s, false, none⟩ := by
  rw [mkQuestion] at h
  split at h
  · cases h
  · split at h
    · cases h
    · cases h
      rfl

/-- C4 (amended): in the delimited form, the `i`-th problem is paired with
the FIRST solution block occurring anywhere in the text after the problem
block's end — the search is not cut off at the next problem block — and
the solution is the empty string exactly when no solution block occurs
between the problem's end and the end of the text. -/
theorem C4_delimited_pairing (latex : List Char) (topic : String) (qs : List Question)
    (h : parse_delimited_format latex topic = .ok qs) :
    qs.length = (delimScan (latex.length + 1) latex).length ∧
    ∀ (i : Nat) (h1 : i < qs.length)
      (h2 : i < (delimScan (latex.length + 1) latex).length),
      qs[i].text = String.mk (pyStrip (delimScan (latex.length + 1) latex)[i].1) ∧
      qs[i].solution =
        (match findFirstBlock solutionOpenTag solutionCloseTag
            (delimScan (latex.length + 1) latex)[i].2 with
         | some (sc, _) => String.mk (pyStrip sc)
         | none => "") ∧
      (findFirstBlock solutionOpenTag solutionCloseTag
          (delimScan (latex.length + 1) latex)[i].2 = none →
        qs[i].solution = "") := by
  rw [parse_delimited_format] at h
  obtain ⟨hl, hp⟩ := mapMExcept_ok _ _ _ h
  refine ⟨by rw [hl, List.enum_length], ?_⟩
  intro i h1 h2
  have hi : i < (delimScan (latex.length + 1) latex).enum.length := by
    simpa [List.enum_length] using h2
  have hq := hp i hi h1
  rw [List.getElem_enum] at hq
  dsimp only at hq
  have hfields := mkQuestion_ok hq
  rw [hfields]
  have hsol : (⟨topic ++ "_" ++ toString (i + 1), topic,
      String.mk (pyStrip (delimScan (latex.length + 1) latex)[i].1),
      String.mk
        (match findFirstBlock solutionOpenTag solutionCloseTag
            (delimScan (latex.length + 1) latex)[i].2 with
         | some (sc, _) => pyStrip sc
         | none => []), false, none⟩ : Question).solution =
      (match findFirstBlock solutionOpenTag solutionCloseTag
          (delimScan (latex.length + 1) latex)[i].2 with
       | some (sc, _) => String.mk (pyStrip sc)
       | none => "") := by
    cases hf : findFirstBlock solutionOpenTag solutionCloseTag
        (delimScan (latex.length + 1) latex)[i].2 with
    | none => rfl
    | some pr => rfl
  refine ⟨rfl, hsol, ?_⟩
  intro hn
  rw [hsol, hn]

def latexC4w : List Char :=
  ("\\begin\x7bproblem\x7dP1\\end\x7bproblem\x7d\\begin\x7bsolution\x7dS1\\end\x7bsolution\x7d\\begin\x7bproblem\x7dP2\\end\x7bproblem\x7d").data

/-- Witness for C4's amended theorem at a concrete two-problem text whose
second problem has no following solution block. -/
theorem C4_witness :
    ([⟨"t_1", "t", "P1", "S1", false, none⟩, ⟨"t_2", "t", "P2", "", false, none⟩] :
        List Question).length = (delimScan (latexC4w.length + 1) latexC4w).length ∧
    ([⟨"t_1", "t", "P1", "S1", false, none⟩, ⟨"t_2", "t", "P2", "", false, none⟩] :
        List Question)[1].solution = "" :=
  ⟨(C4_delimited_pairing latexC4w "t" _ rfl).1,
   ((C4_delimited_pairing latexC4w "t"
       [⟨"t_1", "t", "P1", "S1", false, none⟩, ⟨"t_2", "t", "P2", "", false, none⟩] rfl).2
     1 (by decide) (by decide)).2.2 rfl⟩

def latexC4 : List Char :=
  ("\\begin\x7bproblem\x7dP1\\end\x7bproblem\x7d\\begin\x7bproblem\x7dP2\\end\x7bproblem\x7d\\begin\x7bsolution\x7dS\\end\x7bsolution\x7d").data

/-- C4 counterexample: a solution block located after a later problem block
IS attached to the earlier problem (both problems share it), although the
claim says the earlier problem's solution should then be empty. -/
theorem C4_counterexample :
    parse_latex_questions latexC4 "t" =
      .ok [⟨"t_1", "t", "P1", "S", false, none⟩, ⟨"t_2", "t", "P2", "S", false, none⟩] ∧
    ("S" : String) ≠ "" :=
  ⟨rfl, by decide⟩

theorem rngChoice_mem {α : Type} (d : α) (r : RState) (l : List α) (h : l ≠ []) :
    (rngChoice d r l).1 ∈ l := by
  have hlt : r.f r.i % l.length < l.length := Nat.mod_lt _ (List.length_pos.mpr h)
  rw [rngChoice]
  dsimp only
  rw [List.getD_eq_getElem l d hlt]
  exact List.getElem_mem hlt

theorem candidateProblems_mem (digest : String → String) (tracker : Option TrackerState)
    (pu : Bool) (problems : List Problem) :
    ∀ p ∈ candidateProblems digest tracker pu problems, p ∈ problems := by
  intro p hp
  cases tracker with
  | none => exact hp
  | some st =>
    simp only [candidateProblems] at hp
    split at hp
    · split at hp
      · exact hp
      · exact List.mem_of_mem_filter (show p ∈ problems.filter _ from hp)
    · exact hp

theorem candidateProblems_ne_nil (digest : String → String) (tracker : Option TrackerState)
    (pu : Bool) {problems : List Problem} (h : problems ≠ []) :
    candidateProblems digest tracker pu problems ≠ [] := by
  cases tracker with
  | none => exact h
  | some st =>
    simp only [candidateProblems]
    split
    · split
      · exact h
      · next hne =>
        intro hc
        rw [hc] at hne
        exact hne rfl
    · exact h

theorem probEq_false_of_ne_topic {p q : Problem} (h : p.topic ≠ q.topic) :
    probEq p q = false := by
  cases hpq : probEq p q with
  | false => rfl
  | true => exact absurd ((probEq_iff p q).mp hpq).1 h

theorem coverage_pass_keeps (digest : String → String) (tracker : Option TrackerState)
    (pu : Bool) (k : Nat) :
    ∀ (pairs : List (String × List Problem)) (sel : List Problem) (r : RState),
      ∀ p ∈ sel, p ∈ (coverage_pass digest tracker pu k pairs sel r).1 := by
  intro pairs
  induction pairs with
  | nil => intro sel r p hp; exact hp
  | cons hd rest ih =>
    intro sel r p hp
    obtain ⟨t, ps⟩ := hd
    rw [coverage_pass]
    split
    · exact hp
    · split
      · exact ih sel r p hp
      · exact ih _ _ p (List.mem_append_left _ hp)

theorem coverage_pass_len (digest : String → String) (tracker : Option TrackerState)
    (pu : Bool) (k : Nat) :
    ∀ (pairs : List (String × List Problem)) (sel : List Problem) (r : RState),
      sel.length ≤ k → ((coverage_pass digest tracker pu k pairs sel r).1).length ≤ k := by
  intro pairs
  induction pairs with
  | nil => intro sel r h; exact h
  | cons hd rest ih =>
    intro sel r h
    obtain ⟨t, ps⟩ := hd
    rw [coverage_pass]
    split
    · exact h
    · next hk =>
      split
      · exact ih sel r h
      · apply ih
        rw [List.length_append]
        simp only [List.length_singleton]
        omega

theorem coverage_pass_covers (digest : String → String) (tracker : Option TrackerState)
    (pu : Bool) (k : Nat) :
    ∀ (pairs : List (String × List Problem)) (sel : List Problem) (r : RState),
      (∀ tp ∈ pairs, tp.2 ≠ []) →
      sel.length + pairs.length ≤ k →
      ∀ tp ∈ pairs, ∃ p ∈ (coverage_pass digest tracker pu k pairs sel r).1, p ∈ tp.2 := by
  intro pairs
  induction pairs with
  | nil => intro sel r _ _ tp htp; cases htp
  | cons hd rest ih =>
    intro sel r hne hlen tp htp
    obtain ⟨t, ps⟩ := hd
    have hps : ps ≠ [] := hne (t, ps) (List.mem_cons_self _ _)
    have hlt : sel.length < k := by
      rw [List.length_cons] at hlen
      omega
    have hpse : ps.isEmpty = false := by
      cases ps with
      | nil => exact absurd rfl hps
      | cons a t' => rfl
    rw [coverage_pass]
    rw [if_neg (by omega)]
    rw [if_neg (by rw [hpse]; simp)]
    cases htp with
    | head =>
      refine ⟨(rngChoice defaultProblem r (candidateProblems digest tracker pu ps)).1, ?_, ?_⟩
      · apply coverage_pass_keeps
        exact List.mem_append_right _ (by simp)
      · exact candidateProblems_mem digest tracker pu ps _
          (rngChoice_mem _ _ _ (candidateProblems_ne_nil digest tracker pu hps))
    | tail _ htl =>
      refine ih _ _ (fun tp' h' => hne tp' (List.mem_cons_of_mem _ h')) ?_ tp htl
      rw [List.length_append, List.length_singleton]
      rw [List.length_cons] at hlen
      omega

theorem coverage_pass_distinct (digest : String → String) (tracker : Option TrackerState)
    (pu : Bool) (k : Nat) :
    ∀ (pairs : List (String × List Problem)) (sel : List Problem) (r : RState),
      (pairs.map Prod.fst).Nodup →
      (∀ tp ∈ pairs, ∀ p ∈ tp.2, p.topic = tp.1) →
      sel.Pairwise (fun p q => probEq p q = false) →
      (∀ p ∈ sel, ∀ tp ∈ pairs, p.topic ≠ tp.1) →
      ((coverage_pass digest tracker pu k pairs sel r).1).Pairwise
        (fun p q => probEq p q = false) := by
  intro pairs
  induction pairs with
  | nil => intro sel r _ _ hsel _; exact hsel
  | cons hd rest ih =>
    intro sel r hnd hcons hsel hdisj
    obtain ⟨t, ps⟩ := hd
    rw [List.map_cons, List.nodup_cons] at hnd
    obtain ⟨htnotin, hndrest⟩ := hnd
    rw [coverage_pass]
    split
    · exact hsel
    · split
      · exact ih sel r hndrest (fun tp' h' => hcons tp' (List.mem_cons_of_mem _ h')) hsel
          (fun p hp tp' h' => hdisj p hp tp' (List.mem_cons_of_mem _ h'))
      · next hpse =>
        have hps : ps ≠ [] := by
          intro hc
          rw [hc] at hpse
          exact hpse rfl
        have hchosen : (rngChoice defaultProblem r (candidateProblems digest tracker pu ps)).1 ∈ ps :=
          candidateProblems_mem digest tracker pu ps _
            (rngChoice_mem _ _ _ (candidateProblems_ne_nil digest tracker pu hps))
        have hct : (rngChoice defaultProblem r (candidateProblems digest tracker pu ps)).1.topic = t :=
          hcons (t, ps) (List.mem_cons_self _ _) _ hchosen
        apply ih
        · exact hndrest
        · exact fun tp' h' => hcons tp' (List.mem_cons_of_mem _ h')
        · rw [List.pairwise_append]
          refine ⟨hsel, List.pairwise_singleton _ _, ?_⟩
          intro a ha b hb
          rw [List.mem_singleton] at hb
          subst hb
          apply probEq_false_of_ne_topic
          rw [hct]
          exact hdisj a ha (t, ps) (List.mem_cons_self _ _)
        · intro p hp tp' h'
          rcases List.mem_append.mp hp with hp1 | hp2
          · exact hdisj p hp1 tp' (List.mem_cons_of_mem _ h')
          · rw [List.mem_singleton] at hp2
            subst hp2
            rw [hct]
            intro hc
            apply htnotin
            rw [hc]
            exact List.mem_map.mpr ⟨tp', h', rfl⟩

theorem fill_pass_keeps (digest : String → String) (tracker : Option TrackerState)
    (pu : Bool) (k : Nat) (avail : List (String × List Problem)) :
    ∀ (fuel : Nat) (sel : List Problem) (r : RState) (l : List Problem) (r' : RState),
      fill_pass digest tracker pu k avail fuel sel r = some (l, r') →
      ∀ p ∈ sel, p ∈ l := by
  intro fuel
  induction fuel with
  | zero => intro sel r l r' h; cases h
  | succ m ih =>
    intro sel r l r' h p hp
    rw [fill_pass] at h
    split at h
    · rw [Option.some.injEq, Prod.mk.injEq] at h
      obtain ⟨h1, _⟩ := h
      rw [← h1]
      exact hp
    · dsimp only at h
      split at h
      · exact ih _ _ _ _ h p hp
      · exact ih _ _ _ _ h p (List.mem_append_left _ hp)

theorem fill_pass_len (digest : String → String) (tracker : Option TrackerState)
    (pu : Bool) (k : Nat) (avail : List (String × List Problem)) :
    ∀ (fuel : Nat) (sel : List Problem) (r : RState) (l : List Problem) (r' : RState),
      sel.length ≤ k →
      fill_pass digest tracker pu k avail fuel sel r = some (l, r') →
      l.length = k := by
  intro fuel
  induction fuel with
  | zero => intro sel r l r' _ h; cases h
  | succ m ih =>
    intro sel r l r' hle h
    rw [fill_pass] at h
    split at h
    · next hk =>
      rw [Option.some.injEq, Prod.mk.injEq] at h
      obtain ⟨h1, _⟩ := h
      rw [← h1]
      omega
    · next hk =>
      dsimp only at h
      split at h
      · exact ih _ _ _ _ hle h
      · refine ih _ _ _ _ ?_ h
        rw [List.length_append, List.length_singleton]
        omega

theorem fill_pass_distinct (digest : String → String) (tracker : Option TrackerState)
    (pu : Bool) (k : Nat) (avail : List (String × List Problem)) :
    ∀ (fuel : Nat) (sel : List Problem) (r : RState) (l : List Problem) (r' : RState),
      sel.Pairwise (fun p q => probEq p q = false) →
      fill_pass digest tracker pu k avail fuel sel r = some (l, r') →
      l.Pairwise (fun p q => probEq p q = false) := by
  intro fuel
  induction fuel with
  | zero => intro sel r l r' _ h; cases h
  | succ m ih =>
    intro sel r l r' hsel h
    rw [fill_pass] at h
    split at h
    · rw [Option.some.injEq, Prod.mk.injEq] at h
      obtain ⟨h1, _⟩ := h
      rw [← h1]
      exact hsel
    · dsimp only at h
      split at h
      · exact ih _ _ _ _ hsel h
      · next hpm =>
        refine ih _ _ _ _ ?_ h
        rw [List.pairwise_append]
        refine ⟨hsel, List.pairwise_singleton _ _, ?_⟩
        intro a ha b hb
        rw [List.mem_singleton] at hb
        subst hb
        rw [probEq_comm]
        rw [Bool.not_eq_true] at hpm
        rw [pmem] at hpm
        rw [List.any_eq_false] at hpm
        exact Bool.eq_false_iff.mpr (hpm a ha)

/-- C1 (amended): whenever `select_questions` returns a list — for a count in
`[1, total]`, a topic map with distinct keys in which every problem is stored
under its own topic — that list has exactly `count` elements and no two of
them share identity.  (The unamended claim fails: the result can hold
duplicates when equal problems sit under different keys, and the call need
not return at all, see the fill-pass divergence.) -/
theorem C1_select_count_distinct (digest : String → String)
    (topics : List (String × List Problem)) (tracker : Option TrackerState)
    (pu : Bool) (n : Int) (r : RState) (fuel : Nat) (l : List Problem)
    (hn : 1 ≤ n) (htot : n.toNat ≤ total_available topics)
    (hkeys : (topics.map Prod.fst).Nodup)
    (hcons : ∀ tp ∈ topics, ∀ p ∈ tp.2, p.topic = tp.1)
    (hok : (select_questions digest topics tracker pu n r fuel).1 = some (.ok l)) :
    l.length = n.toNat ∧ l.Pairwise (fun p q => probEq p q = false) := by
  rw [select_questions] at hok
  rw [if_neg (by omega)] at hok
  dsimp only at hok
  split at hok
  · simp at hok
  · split at hok
    · simp at hok
    · split at hok
      · next lf rf heq =>
        simp only [Option.some.injEq, Except.ok.injEq] at hok
        subst hok
        have hfilkeys : (((topics.filter (fun tp => !tp.2.isEmpty)).map Prod.fst)).Nodup :=
          List.Nodup.sublist (List.Sublist.map Prod.fst (List.filter_sublist topics)) hkeys
        have hfilcons : ∀ tp ∈ topics.filter (fun tp => !tp.2.isEmpty), ∀ p ∈ tp.2, p.topic = tp.1 :=
          fun tp htp => hcons tp (List.mem_of_mem_filter htp)
        have hcovlen : ((coverage_pass digest tracker pu n.toNat
            (topics.filter (fun tp => !tp.2.isEmpty)) [] r).1).length ≤ n.toNat :=
          coverage_pass_len digest tracker pu n.toNat _ [] r (by simp)
        have hcovdist : ((coverage_pass digest tracker pu n.toNat
            (topics.filter (fun tp => !tp.2.isEmpty)) [] r).1).Pairwise
              (fun p q => probEq p q = false) :=
          coverage_pass_distinct digest tracker pu n.toNat _ [] r hfilkeys hfilcons
            List.Pairwise.nil (by simp)
        exact ⟨fill_pass_len digest tracker pu n.toNat _ fuel _ _ _ _ hcovlen heq,
          fill_pass_distinct digest tracker pu n.toNat _ fuel _ _ _ _ hcovdist heq⟩
      · simp at hok

def pX : Problem := ⟨"X", "t", none⟩

def topicsC1 : List (String × List Problem) := [("A", [pX]), ("B", [pX])]

/-- C1 counterexample: on a topic map whose two keys hold the same problem
(identity `("X", "t")`), a request for 2 — within `[1, total] = [1, 2]` —
returns a 2-element list whose two entries share identity: the coverage
pass appends one pick per key with no duplicate check. -/
theorem C1_counterexample :
    (select_questions idDigest topicsC1 none true 2 zeroRng 1).1 = some (.ok [pX, pX]) ∧
    probEq pX pX = true ∧
    (1 : Int) ≤ 2 ∧ (2 : Int).toNat ≤ total_available topicsC1 :=
  ⟨rfl, rfl, by decide, by decide⟩

def topicsC1w : List (String × List Problem) :=
  [("A", [⟨"A", "a1", none⟩]), ("B", [⟨"B", "b1", none⟩])]

/-- Witness for C1's amended theorem at a concrete well-formed topic map. -/
theorem C1_witness :
    ([⟨"A", "a1", none⟩, ⟨"B", "b1", none⟩] : List Problem).length = (2 : Int).toNat ∧
    ([⟨"A", "a1", none⟩, ⟨"B", "b1", none⟩] : List Problem).Pairwise
      (fun p q => probEq p q = false) :=
  C1_select_count_distinct idDigest topicsC1w none true 2 zeroRng 1
    [⟨"A", "a1", none⟩, ⟨"B", "b1", none⟩] (by decide) (by decide) (by decide)
    (by decide) rfl

theorem isEmptyFalseOfNeNil {α : Type} {l : List α} (h : l ≠ []) : l.isEmpty = false := by
  cases l with
  | nil => exact absurd rfl h
  | cons a t => rfl

theorem cons_eraseIdx_perm {α : Type} :
    ∀ (l : List α) (i : Nat) (h : i < l.length), (l[i] :: l.eraseIdx i).Perm l := by
  intro l
  induction l with
  | nil => intro i h; simp at h
  | cons x xs ih =>
    intro i h
    cases i with
    | zero => simp
    | succ j =>
      have hj : j < xs.length := by simpa using h
      simp only [List.getElem_cons_succ, List.eraseIdx_cons_succ]
      exact List.Perm.trans (List.Perm.swap x xs[j] _) (List.Perm.cons x (ih j hj))

theorem pySample_length {α : Type} (d : α) :
    ∀ (k : Nat) (r : RState) (l : List α), k ≤ l.length → (pySample d r l k).1.length = k := by
  intro k
  induction k with
  | zero => intro r l _; rfl
  | succ m ih =>
    intro r l h
    have hpos : 0 < l.length := by omega
    have hidx : r.f r.i % l.length < l.length := Nat.mod_lt _ hpos
    have herase : (l.eraseIdx (r.f r.i % l.length)).length = l.length - 1 := by
      rw [List.length_eraseIdx, if_pos hidx]
    rw [pySample]
    dsimp only
    rw [List.length_cons, ih _ _ (by omega)]

theorem pySample_sub {α : Type} (d : α) :
    ∀ (k : Nat) (r : RState) (l : List α), k ≤ l.length →
      ∀ x ∈ (pySample d r l k).1, x ∈ l := by
  intro k
  induction k with
  | zero => intro r l _ x hx; cases hx
  | succ m ih =>
    intro r l h x hx
    have hpos : 0 < l.length := by omega
    have hidx : r.f r.i % l.length < l.length := Nat.mod_lt _ hpos
    have herase : (l.eraseIdx (r.f r.i % l.length)).length = l.length - 1 := by
      rw [List.length_eraseIdx, if_pos hidx]
    rw [pySample] at hx
    dsimp only at hx
    rw [List.getD_eq_getElem l d hidx] at hx
    rcases List.mem_cons.mp hx with hx1 | hx2
    · rw [hx1]
      exact List.getElem_mem hidx
    · exact (List.eraseIdx_sublist l _).subset (ih _ _ (by omega) x hx2)

theorem pySample_perm {α : Type} (d : α) :
    ∀ (n : Nat) (l : List α) (r : RState), l.length = n →
      (pySample d r l n).1.Perm l := by
  intro n
  induction n with
  | zero =>
    intro l r h
    rw [List.length_eq_zero] at h
    subst h
    rfl
  | succ m ih =>
    intro l r h
    have hpos : 0 < l.length := by omega
    have hidx : r.f r.i % l.length < l.length := Nat.mod_lt _ hpos
    have herase : (l.eraseIdx (r.f r.i % l.length)).length = m := by
      rw [List.length_eraseIdx, if_pos hidx]
      omega
    rw [pySample]
    dsimp only
    rw [List.getD_eq_getElem l d hidx]
    exact List.Perm.trans (List.Perm.cons _ (ih _ _ herase)) (cons_eraseIdx_perm l _ hidx)

theorem pySample_nodup {α : Type} (d : α) :
    ∀ (k : Nat) (l : List α) (r : RState), l.Nodup → k ≤ l.length →
      (pySample d r l k).1.Nodup := by
  intro k
  induction k with
  | zero => intro l r _ _; exact List.nodup_nil
  | succ m ih =>
    intro l r hnd h
    have hpos : 0 < l.length := by omega
    have hidx : r.f r.i % l.length < l.length := Nat.mod_lt _ hpos
    have herase : (l.eraseIdx (r.f r.i % l.length)).length = l.length - 1 := by
      rw [List.length_eraseIdx, if_pos hidx]
    have hperm := cons_eraseIdx_perm l _ hidx
    have hcons : (l[r.f r.i % l.length] :: l.eraseIdx (r.f r.i % l.length)).Nodup :=
      (List.Perm.nodup_iff hperm).mpr hnd
    rw [List.nodup_cons] at hcons
    rw [pySample]
    dsimp only
    rw [List.getD_eq_getElem l d hidx, List.nodup_cons]
    constructor
    · intro hmem
      exact hcons.1 (pySample_sub d m _ _ (by omega) _ hmem)
    · exact ih _ _ hcons.2 (by omega)

theorem filterMapKeysSub {β : Type} (f : String → Option (String × β))
    (hf : ∀ t p, f t = some p → p.1 = t) :
    ∀ (topics : List String), ((topics.filterMap f).map Prod.fst).Sublist topics := by
  intro topics
  induction topics with
  | nil => simp
  | cons t ts ih =>
    rw [List.filterMap_cons]
    cases hft : f t with
    | none => exact List.Sublist.cons t ih
    | some p =>
      rw [List.map_cons, hf t p hft]
      exact List.Sublist.cons₂ t ih

theorem unsolvedByTopic_keys_sub (bank : List Question) (topics : List String) :
    ((unsolvedByTopic bank topics).map Prod.fst).Sublist topics := by
  apply filterMapKeysSub
  intro t p h
  dsimp only at h
  split at h
  · cases h
  · rw [Option.some.injEq] at h
    rw [← h]

theorem allByTopic_keys_sub (bank : List Question) (topics : List String) :
    ((allByTopic bank topics).map Prod.fst).Sublist topics := by
  apply filterMapKeysSub
  intro t p h
  dsimp only at h
  split at h
  · cases h
  · rw [Option.some.injEq] at h
    rw [← h]

theorem unsolvedByTopic_mem (bank : List Question) (topics : List String)
    (tp : String × List Question) (h : tp ∈ unsolvedByTopic bank topics) :
    tp.2 ≠ [] ∧ ∀ q ∈ tp.2, q.topic = tp.1 := by
  rw [unsolvedByTopic, List.mem_filterMap] at h
  obtain ⟨t, _, hf⟩ := h
  dsimp only at hf
  split at hf
  · cases hf
  · next hne =>
    rw [Option.some.injEq] at hf
    subst hf
    dsimp only
    refine ⟨fun hc => hne (by rw [hc]; rfl), ?_⟩
    intro q hq
    have h1 := (List.mem_filter.mp hq).1
    have h2 := (List.mem_filter.mp h1).2
    exact beq_iff_eq.mp h2

theorem allByTopic_mem (bank : List Question) (topics : List String)
    (tp : String × List Question) (h : tp ∈ allByTopic bank topics) :
    tp.2 ≠ [] ∧ ∀ q ∈ tp.2, q.topic = tp.1 := by
  rw [allByTopic, List.mem_filterMap] at h
  obtain ⟨t, _, hf⟩ := h
  dsimp only at hf
  split at hf
  · cases hf
  · next hne =>
    rw [Option.some.injEq] at hf
    subst hf
    dsimp only
    refine ⟨fun hc => hne (by rw [hc]; rfl), ?_⟩
    intro q hq
    exact beq_iff_eq.mp (List.mem_filter.mp hq).2

theorem lookupTopic_found (ubt : List (String × List Question)) (t : String)
    (hmem : t ∈ ubt.map Prod.fst) :
    ∃ tp ∈ ubt, tp.1 = t ∧ lookupTopic ubt t = tp.2 := by
  induction ubt with
  | nil => cases hmem
  | cons hd rest ih =>
    by_cases hh : hd.1 = t
    · refine ⟨hd, List.mem_cons_self _ _, hh, ?_⟩
      rw [lookupTopic, List.find?_cons_of_pos _ (by rw [hh]; exact beq_self_eq_true t)]
    · have hmem' : t ∈ rest.map Prod.fst := by
        rw [List.map_cons] at hmem
        rcases List.mem_cons.mp hmem with h1 | h2
        · exact absurd h1.symm hh
        · exact h2
      obtain ⟨tp, htp, hfst, hlk⟩ := ih hmem'
      refine ⟨tp, List.mem_cons_of_mem _ htp, hfst, ?_⟩
      rw [lookupTopic, List.find?_cons_of_neg _ (by simpa using hh)]
      rw [lookupTopic] at hlk
      exact hlk

theorem pickPerTopic_topics (ubt : List (String × List Question)) (now : Nat)
    (hubt : ∀ tp ∈ ubt, tp.2 ≠ [] ∧ ∀ q ∈ tp.2, q.topic = tp.1) :
    ∀ (ts : List String) (r : RState), (∀ t ∈ ts, t ∈ ubt.map Prod.fst) →
      ((pickPerTopic ubt now ts r).1.map (fun q => q.topic)) = ts := by
  intro ts
  induction ts with
  | nil => intro r _; rfl
  | cons t ts' ih =>
    intro r hts
    obtain ⟨tp, htp, hfst, hlk⟩ := lookupTopic_found ubt t (hts t (List.mem_cons_self _ _))
    obtain ⟨hne, htop⟩ := hubt tp htp
    rw [pickPerTopic]
    dsimp only
    rw [List.map_cons]
    have hchoice : (rngChoice defaultQuestion r (lookupTopic ubt t)).1 ∈ tp.2 := by
      rw [hlk]
      exact rngChoice_mem _ _ _ hne
    rw [ih _ (fun u hu => hts u (List.mem_cons_of_mem _ hu))]
    have : (rngChoice defaultQuestion r (lookupTopic ubt t)).1.topic = t := by
      rw [htop _ hchoice, hfst]
    rw [show ({ (rngChoice defaultQuestion r (lookupTopic ubt t)).1 with
        done := true, last_seen := some now } : Question).topic =
        (rngChoice defaultQuestion r (lookupTopic ubt t)).1.topic from rfl, this]

theorem sortStrs_perm (l : List String) : (sortStrs l).Perm l :=
  List.perm_insertionSort _ l

theorem get_topics_nodup (bank : List Question) : (get_topics bank).Nodup :=
  (List.Perm.nodup_iff (sortStrs_perm _)).mpr (List.nodup_dedup _)

theorem genPickAux (topics : List String) (ubt2 : List (String × List Question))
    (hkeys : (ubt2.map Prod.fst).Sublist topics)
    (hnd : topics.Nodup)
    (hprops : ∀ tp ∈ ubt2, tp.2 ≠ [] ∧ ∀ q ∈ tp.2, q.topic = tp.1)
    (n : Nat) (r r2 : RState) (now : Nat)
    (hlen : n ≤ ubt2.length)
    (sel : List Question)
    (hsel : sel = (pickPerTopic ubt2 now (pySample "" r (ubt2.map Prod.fst) n).1 r2).1) :
    sel.Pairwise (fun a b => a.topic ≠ b.topic) ∧
    (topics.length ≤ n →
      ∀ t ∈ topics, (sel.filter (fun q => q.topic == t)).length = 1) := by
  have hklen : n ≤ (ubt2.map Prod.fst).length := by
    rw [List.length_map]
    exact hlen
  have hknd : (ubt2.map Prod.fst).Nodup := hkeys.nodup hnd
  have hsub : ∀ t ∈ (pySample "" r (ubt2.map Prod.fst) n).1, t ∈ ubt2.map Prod.fst :=
    pySample_sub "" n r _ hklen
  have htopics : sel.map (fun q => q.topic) = (pySample "" r (ubt2.map Prod.fst) n).1 := by
    rw [hsel]
    exact pickPerTopic_topics ubt2 now hprops _ r2 hsub
  have hsnd : (pySample "" r (ubt2.map Prod.fst) n).1.Nodup :=
    pySample_nodup "" n _ r hknd hklen
  constructor
  · have hmnd : (sel.map (fun q => q.topic)).Nodup := by
      rw [htopics]
      exact hsnd
    exact List.pairwise_map.mp hmnd
  · intro hge t ht
    have hkeq : ubt2.map Prod.fst = topics := by
      apply List.Sublist.eq_of_length_le hkeys
      rw [List.length_map]
      omega
    have hlen2 : (ubt2.map Prod.fst).length = n := by
      rw [hkeq]
      rw [hkeq] at hklen
      omega
    have hperm : (pySample "" r (ubt2.map Prod.fst) n).1.Perm topics := by
      rw [← hkeq]
      exact pySample_perm "" n (ubt2.map Prod.fst) r hlen2
    have hc1 : (sel.filter (fun q => q.topic == t)).length =
        List.countP (fun x => x == t) (sel.map (fun q => q.topic)) := by
      rw [List.countP_map]
      exact (List.countP_eq_length_filter _ _).symm
    rw [hc1, htopics, List.Perm.countP_eq _ hperm]
    exact List.count_eq_one_of_mem hnd ht

theorem selectorCoverageAux (digest : String → String)
    (topics : List (String × List Problem)) (tracker : Option TrackerState)
    (pu : Bool) (n : Int) (r : RState) (fuel : Nat) (l : List Problem)
    (hok : (select_questions digest topics tracker pu n r fuel).1 = some (.ok l))
    (hcnt : (topics.filter (fun tp => !tp.2.isEmpty)).length ≤ n.toNat) :
    ∀ tp ∈ topics, tp.2 ≠ [] → ∃ p ∈ l, p ∈ tp.2 := by
  intro tp htp hne
  rw [select_questions] at hok
  split at hok
  · simp at hok
  · dsimp only at hok
    split at hok
    · simp at hok
    · split at hok
      · simp at hok
      · split at hok
        · next lf rf heq =>
          simp only [Option.some.injEq, Except.ok.injEq] at hok
          subst hok
          have hmemfil : tp ∈ topics.filter (fun tp => !tp.2.isEmpty) :=
            List.mem_filter.mpr ⟨htp, by rw [isEmptyFalseOfNeNil hne]; rfl⟩
          have hall : ∀ tp' ∈ topics.filter (fun tp => !tp.2.isEmpty), tp'.2 ≠ [] := by
            intro tp' h' hc
            have h2 := (List.mem_filter.mp h').2
            rw [hc] at h2
            simp at h2
          obtain ⟨p, hpc, hptp⟩ := coverage_pass_covers digest tracker pu n.toNat _ [] r hall
            (by simpa using hcnt) tp hmemfil
          exact ⟨p, fill_pass_keeps digest tracker pu n.toNat _ fuel _ _ _ _ heq p hpc, hptp⟩
        · simp at hok

theorem generatorExclusiveAux (bank : List Question) (n : Nat) (r : RState) (now : Nat)
    (sel : List Question) (hok : generate_exam_one_per_topic bank n r now = .ok sel) :
    sel.Pairwise (fun a b => a.topic ≠ b.topic) ∧
    ((get_topics bank).length ≤ n →
      ∀ t ∈ get_topics bank, (sel.filter (fun q => q.topic == t)).length = 1) := by
  rw [generate_exam_one_per_topic] at hok
  split at hok
  · simp at hok
  · next hnle =>
    dsimp only at hok
    split at hok
    · -- reset branch: ubt2 = allByTopic (bank.map resetQuestion) topics
      dsimp only at hok
      split at hok
      · simp at hok
      · next hlen2 =>
        split at hok
        · simp at hok
        · rw [Except.ok.injEq] at hok
          exact genPickAux (get_topics bank) _ (allByTopic_keys_sub _ _)
            (get_topics_nodup bank) (fun tp htp => allByTopic_mem _ _ tp htp)
            n r _ now (by omega) sel hok.symm
    · -- no-reset branch: ubt2 = unsolvedByTopic bank topics; here the pool-size
      -- guard repeats the branch condition, so only the validation split remains
      next hubtlen =>
      dsimp only at hok
      split at hok
      · simp at hok
      · rw [Except.ok.injEq] at hok
        exact genPickAux (get_topics bank) _ (unsolvedByTopic_keys_sub _ _)
          (get_topics_nodup bank) (fun tp htp => unsolvedByTopic_mem _ _ tp htp)
          n r _ now (by omega) sel hok.symm

/-- C9: (i) whenever `select_questions` returns a list and the requested
count is at least the number of topics with at least one unit, the list
contains a unit from every such topic (the coverage pass contributes one
per topic and the fill pass only appends); (ii) in topic-exclusive mode
(`_generate_exam_one_per_topic`), the returned questions come from
pairwise-distinct topics, and when the count is at least the number of
topics every topic appears exactly once. -/
theorem C9_topic_coverage :
    (∀ (digest : String → String) (topics : List (String × List Problem))
       (tracker : Option TrackerState) (pu : Bool) (n : Int) (r : RState) (fuel : Nat)
       (l : List Problem),
       (select_questions digest topics tracker pu n r fuel).1 = some (.ok l) →
       (topics.filter (fun tp => !tp.2.isEmpty)).length ≤ n.toNat →
       ∀ tp ∈ topics, tp.2 ≠ [] → ∃ p ∈ l, p ∈ tp.2) ∧
    (∀ (bank : List Question) (n : Nat) (r : RState) (now : Nat) (sel : List Question),
       generate_exam_one_per_topic bank n r now = .ok sel →
       sel.Pairwise (fun a b => a.topic ≠ b.topic) ∧
       ((get_topics bank).length ≤ n →
         ∀ t ∈ get_topics bank, (sel.filter (fun q => q.topic == t)).length = 1)) :=
  ⟨fun digest topics tracker pu n r fuel l hok hcnt =>
     selectorCoverageAux digest topics tracker pu n r fuel l hok hcnt,
   fun bank n r now sel hok => generatorExclusiveAux bank n r now sel hok⟩

def bankC9 : List Question :=
  [⟨"q1", "A", "x", "", false, none⟩, ⟨"q2", "B", "y", "", false, none⟩]

/-- Witness for C9 at a concrete selector run and a concrete topic-exclusive
generator run. -/
theorem C9_witness :
    (∃ p ∈ ([⟨"A", "a1", none⟩, ⟨"B", "b1", none⟩] : List Problem),
       p ∈ [(⟨"A", "a1", none⟩ : Problem)]) ∧
    ([⟨"q1", "A", "x", "", true, some 5⟩, ⟨"q2", "B", "y", "", true, some 5⟩] :
        List Question).Pairwise (fun a b => a.topic ≠ b.topic) ∧
    (([⟨"q1", "A", "x", "", true, some 5⟩, ⟨"q2", "B", "y", "", true, some 5⟩] :
        List Question).filter (fun q => q.topic == "A")).length = 1 :=
  ⟨C9_topic_coverage.1 idDigest topicsC1w none true 2 zeroRng 1
     [⟨"A", "a1", none⟩, ⟨"B", "b1", none⟩] rfl (by decide)
     ("A", [⟨"A", "a1", none⟩]) (by decide) (by decide),
   (C9_topic_coverage.2 bankC9 2 zeroRng 5
     [⟨"q1", "A", "x", "", true, some 5⟩, ⟨"q2", "B", "y", "", true, some 5⟩] rfl).1,
   (C9_topic_coverage.2 bankC9 2 zeroRng 5
     [⟨"q1", "A", "x", "", true, some 5⟩, ⟨"q2", "B", "y", "", true, some 5⟩] rfl).2
     (by decide) "A" (by decide)⟩

/-- Declarative description of a Python dict built by successive
assignments: the value bound to `n` is the value of the LAST pair of the
assignment sequence carrying key `n`. -/
def lwwGet : List (Nat × List Char) → Nat → Option (List Char)
  | [], _ => none
  | kv :: rest, n =>
    match lwwGet rest n with
    | some v => some v
    | none => if kv.1 = n then some kv.2 else none

theorem dictFind_insert (k : Nat) (v : List Char) (k' : Nat) :
    ∀ d, dictFind (dictInsert k v d) k' = if k' = k then some v else dictFind d k' := by
  intro d
  induction d with
  | nil =>
    by_cases h : k' = k
    · subst h
      simp [dictInsert, dictFind]
    · simp [dictInsert, dictFind, h, Ne.symm h]
  | cons hd rest ih =>
    simp only [dictFind] at ih ⊢
    rw [dictInsert]
    by_cases hh : hd.1 = k
    · rw [if_pos (by simpa using hh)]
      by_cases h : k' = k
      · subst h
        rw [List.find?_cons_of_pos _ (by simpa using hh)]
        rw [if_pos rfl]
        rfl
      · have hne : ¬ hd.1 = k' := fun hc => h (by rw [← hc, hh])
        rw [List.find?_cons_of_neg _ (by simpa using hne)]
        rw [List.find?_cons_of_neg _ (by simpa using hne)]
        rw [if_neg h]
    · rw [if_neg (by simpa using hh)]
      by_cases hx : hd.1 = k'
      · have hkk : ¬ k' = k := fun hc => hh (hx.trans hc)
        rw [List.find?_cons_of_pos _ (by simpa using hx)]
        rw [List.find?_cons_of_pos _ (by simpa using hx)]
        rw [if_neg hkk]
      · rw [List.find?_cons_of_neg _ (by simpa using hx)]
        rw [List.find?_cons_of_neg _ (by simpa using hx)]
        exact ih

theorem dictFind_foldl (k : Nat) :
    ∀ (l : List (Nat × List Char)) (d : List (Nat × List Char)),
      dictFind (l.foldl (fun d kv => dictInsert kv.1 kv.2 d) d) k =
        match lwwGet l k with
        | some v => some v
        | none => dictFind d k := by
  intro l
  induction l with
  | nil => intro d; rfl
  | cons kv rest ih =>
    intro d
    rw [List.foldl_cons, ih]
    rw [lwwGet]
    cases hl : lwwGet rest k with
    | some v => rfl
    | none =>
      dsimp only
      rw [dictFind_insert]
      by_cases h : kv.1 = k
      · rw [if_pos h, if_pos h.symm]
      · rw [if_neg h, if_neg (fun hc => h hc.symm)]

theorem dictFind_dictOf (l : List (Nat × List Char)) (k : Nat) :
    dictFind (dictOf l) k = lwwGet l k := by
  rw [dictOf, dictFind_foldl]
  cases hl : lwwGet l k with
  | some v => rfl
  | none => rfl

theorem mem_dictKeys_iff (d : List (Nat × List Char)) (k : Nat) :
    k ∈ dictKeys d ↔ (dictFind d k).isSome := by
  induction d with
  | nil => simp [dictKeys, dictFind]
  | cons hd rest ih =>
    rw [dictKeys, List.map_cons, List.mem_cons]
    by_cases hh : hd.1 = k
    · simp only [dictFind]
      rw [List.find?_cons_of_pos _ (by simpa using hh)]
      simp [hh.symm]
    · simp only [dictFind]
      rw [List.find?_cons_of_neg _ (by simpa using hh)]
      rw [dictKeys] at ih
      simp only [dictFind] at ih
      constructor
      · intro hmem
        rcases hmem with h1 | h2
        · exact absurd h1.symm hh
        · exact ih.mp h2
      · intro hsome
        exact Or.inr (ih.mpr hsome)

theorem lwwGet_isSome_iff (k : Nat) :
    ∀ (l : List (Nat × List Char)), (lwwGet l k).isSome ↔ k ∈ l.map Prod.fst := by
  intro l
  induction l with
  | nil => simp [lwwGet]
  | cons kv rest ih =>
    rw [lwwGet, List.map_cons, List.mem_cons]
    cases hl : lwwGet rest k with
    | some v =>
      rw [hl] at ih
      simp only [Option.isSome_some, true_iff] at ih
      simp [ih]
    | none =>
      rw [hl] at ih
      simp only [Option.isSome_none] at ih
      by_cases h : kv.1 = k
      · simp [h]
      · simp only [if_neg h]
        constructor
        · intro hc
          cases hc
        · intro hmem
          rcases hmem with h1 | h2
          · exact absurd h1.symm h
          · exact absurd (ih.mpr h2) (by simp)

theorem mem_keys_insert (k : Nat) (v : List Char) (k' : Nat) :
    ∀ d, k' ∈ dictKeys (dictInsert k v d) ↔ k' = k ∨ k' ∈ dictKeys d := by
  intro d
  induction d with
  | nil => simp [dictInsert, dictKeys, eq_comm]
  | cons hd rest ih =>
    rw [dictInsert]
    by_cases hh : hd.1 = k
    · rw [if_pos (by simpa using hh)]
      simp only [dictKeys, List.map_cons, List.mem_cons]
      rw [show ((hd.1, v) : Nat × List Char).1 = k from hh]
      tauto
    · rw [if_neg (by simpa using hh)]
      simp only [dictKeys, List.map_cons, List.mem_cons]
      simp only [dictKeys] at ih
      tauto

theorem nodup_keys_insert (k : Nat) (v : List Char) :
    ∀ d, (dictKeys d).Nodup → (dictKeys (dictInsert k v d)).Nodup := by
  intro d
  induction d with
  | nil => intro _; simp [dictInsert, dictKeys]
  | cons hd rest ih =>
    intro hnd
    rw [dictKeys, List.map_cons, List.nodup_cons] at hnd
    rw [dictInsert]
    by_cases hh : hd.1 = k
    · rw [if_pos (by simpa using hh)]
      rw [dictKeys, List.map_cons, List.nodup_cons]
      exact ⟨hnd.1, hnd.2⟩
    · rw [if_neg (by simpa using hh)]
      rw [dictKeys, List.map_cons, List.nodup_cons]
      refine ⟨?_, ih hnd.2⟩
      intro hmem
      rcases (mem_keys_insert k v hd.1 rest).mp hmem with h1 | h2
      · exact hh h1
      · exact hnd.1 h2

theorem dictOf_keys_nodup (l : List (Nat × List Char)) : (dictKeys (dictOf l)).Nodup := by
  rw [dictOf]
  have : ∀ (l' : List (Nat × List Char)) (d : List (Nat × List Char)),
      (dictKeys d).Nodup →
      (dictKeys (l'.foldl (fun d kv => dictInsert kv.1 kv.2 d) d)).Nodup := by
    intro l'
    induction l' with
    | nil => intro d h; exact h
    | cons kv rest ih =>
      intro d h
      rw [List.foldl_cons]
      exact ih _ (nodup_keys_insert kv.1 kv.2 d h)
  exact this l [] (by simp [dictKeys])

theorem sortNats_perm (l : List Nat) : (sortNats l).Perm l :=
  List.perm_insertionSort _ l

theorem sortNats_sorted_lt {l : List Nat} (h : l.Nodup) :
    (sortNats l).Sorted (· < ·) := by
  have hs : (sortNats l).Sorted (· ≤ ·) := List.sorted_insertionSort _ l
  have hnd : (sortNats l).Nodup := (List.Perm.nodup_iff (sortNats_perm l)).mpr h
  exact (hs.and hnd).imp (fun hab => lt_of_le_of_ne hab.1 hab.2)

/-- C8: in the numbered-subsection form, duplicate labels resolve
last-write-wins (each unit's text is the LAST capture for its label, after
cleanup); the unit list is strictly ascending in the numeric label; each
unit carries the same-labelled solution if present and the empty string
otherwise; problem labels without a solution are retained; solution labels
without a matching problem label produce no unit. -/
theorem C8_subsection_pairing (latex : List Char) (topic : String) :
    ((subsection_units latex).map (fun u => u.1)).Sorted (· < ·) ∧
    (∀ n, n ∈ (subsection_units latex).map (fun u => u.1) ↔
       n ∈ (subsectionProblemScan latex).map Prod.fst) ∧
    (∀ u ∈ subsection_units latex,
       lwwGet (subsectionProblemScan latex) u.1 = some u.2.1 ∧
       u.2.2 = (lwwGet (subsectionSolutionScan latex) u.1).getD []) ∧
    (∀ n, n ∈ (subsectionSolutionScan latex).map Prod.fst →
       n ∉ (subsectionProblemScan latex).map Prod.fst →
       n ∉ (subsection_units latex).map (fun u => u.1)) ∧
    (∀ qs, parse_subsection_format latex topic = .ok qs →
       qs.map (fun q => (q.text, q.solution)) =
         (subsection_units latex).map (fun u => (String.mk u.2.1, String.mk u.2.2))) := by
  have hfst : (subsection_units latex).map (fun u => u.1) =
      sortNats (dictKeys (dictOf (subsectionProblemScan latex))) := by
    rw [subsection_units]
    rw [List.map_map]
    exact List.map_id' _
  have hiff : ∀ n, n ∈ (subsection_units latex).map (fun u => u.1) ↔
      n ∈ (subsectionProblemScan latex).map Prod.fst := by
    intro n
    rw [hfst]
    rw [List.Perm.mem_iff (sortNats_perm _)]
    rw [mem_dictKeys_iff, dictFind_dictOf]
    exact lwwGet_isSome_iff n _
  refine ⟨?_, hiff, ?_, ?_, ?_⟩
  · rw [hfst]
    exact sortNats_sorted_lt (dictOf_keys_nodup _)
  · intro u hu
    rw [subsection_units] at hu
    rw [List.mem_map] at hu
    obtain ⟨n, hn, hu⟩ := hu
    subst hu
    dsimp only
    constructor
    · have hmem : n ∈ dictKeys (dictOf (subsectionProblemScan latex)) :=
        (List.Perm.mem_iff (sortNats_perm _)).mp hn
      have hsome := (mem_dictKeys_iff _ _).mp hmem
      rw [dictFind_dictOf] at hsome
      obtain ⟨v, hv⟩ := Option.isSome_iff_exists.mp hsome
      rw [hv, dictFind_dictOf, hv]
      rfl
    · rw [dictFind_dictOf]
  · intro n _ hnp hmem
    exact hnp ((hiff n).mp hmem)
  · intro qs h
    rw [parse_subsection_format] at h
    obtain ⟨hl, hp⟩ := mapMExcept_ok _ _ _ h
    apply List.ext_getElem
    · rw [List.length_map, List.length_map, hl]
    · intro i h1 h2
      rw [List.length_map] at h1 h2
      rw [List.getElem_map, List.getElem_map]
      have hq := hp i h2 h1
      have hfields := mkQuestion_ok hq
      rw [hfields]

def latexC8 : List Char :=
  ("\\subsection*\x7bSolution 2\x7d sol2\n\\subsection*\x7bSolution 7\x7d dropped\n\\subsection*\x7bProblem 2\x7d two\n\\subsection*\x7bProblem 1\x7d one\n\\subsection*\x7bProblem 2\x7d two-bis").data

set_option maxRecDepth 8192

/-- Witness for C8 at a concrete text with a duplicate problem label (2), a
problem with no solution (1) and a solution with no problem (7). -/
theorem C8_witness :
    subsection_units latexC8 = [(1, "one".data, "".data), (2, "two-bis".data, "sol2".data)] ∧
    lwwGet (subsectionProblemScan latexC8) 2 = some ("two-bis".data) ∧
    ((subsection_units latexC8).map (fun u => u.1)).Sorted (· < ·) ∧
    (7 : Nat) ∉ (subsection_units latexC8).map (fun u => u.1) ∧
    ([⟨"t_1", "t", "one", "", false, none⟩, ⟨"t_2", "t", "two-bis", "sol2", false, none⟩] :
        List Question).map (fun q => (q.text, q.solution)) =
      (subsection_units latexC8).map (fun u => (String.mk u.2.1, String.mk u.2.2)) :=
  ⟨by decide,
   ((C8_subsection_pairing latexC8 "t").2.2.1 (2, "two-bis".data, "sol2".data) (by decide)).1,
   (C8_subsection_pairing latexC8 "t").1,
   (C8_subsection_pairing latexC8 "t").2.2.2.1 7 (by decide) (by decide),
   (C8_subsection_pairing latexC8 "t").2.2.2.2
     [⟨"t_1", "t", "one", "", false, none⟩, ⟨"t_2", "t", "two-bis", "sol2", false, none⟩] rfl⟩
